import Mathlib

/-!
Verification of the MiCO STM32F4xx UART driver
(`Platform/MCU/STM32F4xx/peripherals/platform_uart.c`).

Shallow embedding conventions:
* machine pointers are natural-number addresses, `0` meaning `NULL`;
* byte values are natural numbers;
* the RTOS build (`NO_MICO_RTOS` undefined) is modelled: semaphore waits
  are resolved by explicit oracle parameters giving the bytes that arrive
  during the wait and the status the wait returns;
* interrupt handlers are pure state transformers that also report whether
  they signalled a completion semaphore;
* hardware registers touched by the driver are collected in a record, and
  a C loop with no termination guarantee is modelled with fuel, `none`
  standing for divergence.
-/

/-- `OSStatus` result codes used by the driver. -/
inductive OSStatus where
  | kNoErr
  | kGeneralErr
  | kParamErr
  | kTimeoutErr
  deriving DecidableEq, Repr

/-- Modelled from the spec: the circular (ring) buffer collaborator
`ring_buffer_t`, whose implementation is outside this source file.  The
spec describes it as a fixed-capacity byte store with wraparound
producer/consumer cursors whose used space is derived from a head cursor
advanced by the consumer and a tail cursor advanced by the producer.
`buffer` is the address of the backing store (`0` = `NULL`), `data` the
bytes stored there, `head` the consumer cursor, `tail` the producer
cursor and `size` the capacity. -/
structure ring_buffer_t where
  buffer : Nat
  data : List Nat
  size : Nat
  head : Nat
  tail : Nat
  deriving DecidableEq, Repr

/-- Modelled from the spec: the used-space query of the circular buffer,
computed from the head and tail cursors with wraparound. -/
def ring_buffer_used_space (rb : ring_buffer_t) : Nat :=
  ((rb.size - rb.head) + rb.tail) % rb.size

/-- Modelled from the spec: the contiguous-read operation of the circular
buffer.  Returns the start index of the contiguous used region at the
head together with the number of contiguous used bytes (the used region
up to the physical end of the backing store). -/
def ring_buffer_get_data (rb : ring_buffer_t) : Nat × Nat :=
  (rb.head, min (rb.size - rb.head) (ring_buffer_used_space rb))

/-- Modelled from the spec: the consume operation of the circular buffer;
advances the head cursor with wraparound. -/
def ring_buffer_consume (rb : ring_buffer_t) (n : Nat) : ring_buffer_t :=
  { rb with head := (rb.head + n) % rb.size }

/-- Modelled from the spec: one byte produced into the circular buffer by
the receive DMA running in circular mode — written at the tail cursor,
which then advances with wraparound (the driver observes the advanced
tail through the DMA remaining-count register). -/
def ring_buffer_write (rb : ring_buffer_t) (b : Nat) : ring_buffer_t :=
  { rb with data := rb.data.set rb.tail b, tail := (rb.tail + 1) % rb.size }

/-- Modelled from the spec: a burst of bytes produced into the circular
buffer by the receive DMA, in arrival order. -/
def ring_buffer_fill (rb : ring_buffer_t) (bs : List Nat) : ring_buffer_t :=
  bs.foldl ring_buffer_write rb

/-- The logical content of the circular buffer: the used bytes starting
at the head cursor, in consumption order. -/
def ring_buffer_content (rb : ring_buffer_t) : List Nat :=
  (List.range (ring_buffer_used_space rb)).map
    (fun i => rb.data.getD ((rb.head + i) % rb.size) 0)

/-- Well-formedness of a circular buffer: the backing store has exactly
`size` bytes and both cursors are in range. -/
def ring_buffer_wf (rb : ring_buffer_t) : Prop :=
  rb.data.length = rb.size ∧ rb.head < rb.size ∧ rb.tail < rb.size

instance (rb : ring_buffer_t) : Decidable (ring_buffer_wf rb) := by
  unfold ring_buffer_wf; infer_instance

/-- One DMA stream's registers as the driver uses them: the circular-mode
bit and enable bit of the configuration register `CR`, the
remaining-transfer count `NDTR` and the memory base address `M0AR`. -/
structure dma_stream_t where
  circ : Bool
  en : Bool
  ndtr : Nat
  m0ar : Nat
  deriving DecidableEq, Repr

/-- The hardware state the driver reads and writes: the two DMA streams,
their pending interrupt flags (transfer-complete and the error group
TE/DME/FE, per direction), the USART `TC` status bit, the USART DMA
request enables, the peripheral-level RXNE interrupt enable, the USART
enable, the NVIC enables for the three interrupt vectors the driver
touches, and the DMA-source interrupt enables per stream. -/
structure uart_hw_t where
  tx_stream : dma_stream_t
  rx_stream : dma_stream_t
  tx_complete_pending : Bool
  tx_error_pending : Bool
  rx_complete_pending : Bool
  rx_error_pending : Bool
  sr_tc : Bool
  dma_req_tx : Bool
  dma_req_rx : Bool
  rxne_it : Bool
  usart_enabled : Bool
  nvic_tx_dma : Bool
  nvic_uart : Bool
  nvic_rx_dma : Bool
  tx_dma_it : Bool
  rx_dma_it : Bool
  deriving DecidableEq, Repr

/-- The driver instance `platform_uart_driver_t`: the optional circular
receive buffer, the two expected-byte-count watermarks and the two
last-result fields.  The completion semaphores and the transmit mutex
are represented by events/oracles rather than state. -/
structure platform_uart_driver_t where
  rx_buffer : Option ring_buffer_t
  rx_size : Nat
  tx_size : Nat
  last_transmit_result : OSStatus
  last_receive_result : OSStatus
  deriving DecidableEq, Repr

/-- `platform_uart_get_length_in_buffer` (source lines 557-560): returns
`ring_buffer_used_space(driver->rx_buffer)` with no null guard on
`rx_buffer`; dereferencing a null `rx_buffer` is undefined, modelled as
`none`. -/
def platform_uart_get_length_in_buffer (driver : platform_uart_driver_t) : Option Nat :=
  driver.rx_buffer.map ring_buffer_used_space

/-- `platform_uart_irq` (source lines 683-707), the UART byte interrupt
handler for the buffered streaming path: clears pending peripheral
status, recomputes the ring buffer's tail cursor as
`rx_buffer->size - rx_dma NDTR`, and, if a task is waiting
(`rx_size > 0`) and the used space has reached `rx_size`, signals the RX
Completion Signal and clears `rx_size`.  Returns the new driver state and
whether the RX semaphore was signalled; `none` models the null
dereference of `rx_buffer` in direct mode. -/
def platform_uart_irq (driver : platform_uart_driver_t) (hw : uart_hw_t) :
    Option (platform_uart_driver_t × Bool) :=
  match driver.rx_buffer with
  | none => none
  | some rb =>
    let rb1 : ring_buffer_t := { rb with tail := rb.size - hw.rx_stream.ndtr }
    let d1 : platform_uart_driver_t := { driver with rx_buffer := some rb1 }
    if d1.rx_size > 0 ∧ ring_buffer_used_space rb1 ≥ d1.rx_size then
      (some ({ d1 with rx_size := 0 }, true))
    else
      (some (d1, false))

/-- `platform_uart_tx_dma_irq` (source lines 709-732): if the TX stream's
transfer-complete flag is pending, clear it at the source and record
success; then, if any TX error flag is pending, clear it and record a
general error; finally signal the TX Completion Signal exactly when
`tx_size > 0`.  Returns the new driver state, the new hardware state and
whether the TX semaphore was signalled. -/
def platform_uart_tx_dma_irq (driver : platform_uart_driver_t) (hw : uart_hw_t) :
    platform_uart_driver_t × uart_hw_t × Bool :=
  let step1 : platform_uart_driver_t × uart_hw_t :=
    if hw.tx_complete_pending then
      ({ driver with last_transmit_result := OSStatus.kNoErr },
       { hw with tx_complete_pending := false })
    else (driver, hw)
  let step2 : platform_uart_driver_t × uart_hw_t :=
    if step1.2.tx_error_pending then
      ({ step1.1 with last_transmit_result := OSStatus.kGeneralErr },
       { step1.2 with tx_error_pending := false })
    else step1
  (step2.1, step2.2, decide (driver.tx_size > 0))

/-- `platform_uart_rx_dma_irq` (source lines 734-757), the direct-mode RX
DMA interrupt handler, symmetric to the TX one: records success or a
general error in `last_receive_result` from the pending flags, clears
the flags observed, and signals the RX Completion Signal exactly when
`rx_size > 0`. -/
def platform_uart_rx_dma_irq (driver : platform_uart_driver_t) (hw : uart_hw_t) :
    platform_uart_driver_t × uart_hw_t × Bool :=
  let step1 : platform_uart_driver_t × uart_hw_t :=
    if hw.rx_complete_pending then
      ({ driver with last_receive_result := OSStatus.kNoErr },
       { hw with rx_complete_pending := false })
    else (driver, hw)
  let step2 : platform_uart_driver_t × uart_hw_t :=
    if step1.2.rx_error_pending then
      ({ step1.1 with last_receive_result := OSStatus.kGeneralErr },
       { step1.2 with rx_error_pending := false })
    else step1
  (step2.1, step2.2, decide (driver.rx_size > 0))

/-- Events observable on the task side of `platform_uart_transmit_bytes`,
recording the order of the mutex, validation and synchronization steps. -/
inductive uart_event where
  | powersave_disable
  | lock_tx_mutex
  | validate_params
  | arm_tx_dma
  | start_tx_dma
  | wait_tx_complete
  | busy_wait_tc
  | unlock_tx_mutex
  | powersave_enable
  deriving DecidableEq, Repr

/-- The event trace of a transmit call that fails parameter validation. -/
def transmit_param_error_trace : List uart_event :=
  [uart_event.powersave_disable, uart_event.lock_tx_mutex, uart_event.validate_params,
   uart_event.unlock_tx_mutex, uart_event.powersave_enable]

/-- The event trace of a transmit call that passes validation and
completes. -/
def transmit_success_trace : List uart_event :=
  [uart_event.powersave_disable, uart_event.lock_tx_mutex, uart_event.validate_params,
   uart_event.arm_tx_dma, uart_event.start_tx_dma, uart_event.wait_tx_complete,
   uart_event.busy_wait_tc, uart_event.unlock_tx_mutex, uart_event.powersave_enable]

/-- `platform_uart_transmit_bytes` (source lines 395-444).  `data_out` is
the buffer address (`0` = `NULL`).  The indefinite block on the TX
Completion Signal is resolved by `during_wait`, the combined effect of
the hardware and interrupt activity that happens while the task is
suspended (and afterwards, while it busy-waits).  After the wake the
task busy-waits on the USART `TC` status bit; if `during_wait` leaves
`TC` clear the task spins forever, modelled as `none`.  On success the
result is the final driver and hardware state, the returned status, and
the task-side event trace. -/
def platform_uart_transmit_bytes (driver : platform_uart_driver_t) (hw : uart_hw_t)
    (data_out : Nat) (size : Nat)
    (during_wait : platform_uart_driver_t × uart_hw_t → platform_uart_driver_t × uart_hw_t) :
    Option (platform_uart_driver_t × uart_hw_t × OSStatus × List uart_event) :=
  if data_out = 0 ∨ size = 0 then
    some (driver, hw, OSStatus.kParamErr, transmit_param_error_trace)
  else
    let hw1 : uart_hw_t := { hw with tx_complete_pending := false, tx_error_pending := false }
    let d1 : platform_uart_driver_t :=
      { driver with last_transmit_result := OSStatus.kGeneralErr, tx_size := size }
    let hw2 : uart_hw_t := { hw1 with
      tx_stream := { hw1.tx_stream with circ := false, ndtr := size, m0ar := data_out } }
    let hw3 : uart_hw_t := { hw2 with dma_req_tx := true, sr_tc := false }
    let hw4 : uart_hw_t := { hw3 with tx_stream := { hw3.tx_stream with en := true } }
    let woken := during_wait (d1, hw4)
    if woken.2.sr_tc then
      let hw5 : uart_hw_t := { woken.2 with dma_req_tx := false }
      let d2 : platform_uart_driver_t := { woken.1 with tx_size := 0 }
      some (d2, hw5, woken.1.last_transmit_result, transmit_success_trace)
    else none

/-- The static helper `receive_bytes` (source lines 515-555): arms the RX
DMA stream — circular mode plus per-byte RXNE interrupt when a ring
buffer is present, one-shot mode with `rx_size := size` otherwise —
clears stale RX DMA flags, programs `NDTR`/`M0AR`, enables the stream and
the USART RX DMA request, and waits on the RX Completion Signal only when
`timeout > 0`.  `wait_res` is the status that wait returns when it
happens.  Returns the new driver and hardware state, whether the call
blocked, and the returned status. -/
def receive_bytes (driver : platform_uart_driver_t) (hw : uart_hw_t)
    (data : Nat) (size : Nat) (timeout : Nat) (wait_res : OSStatus) :
    platform_uart_driver_t × uart_hw_t × Bool × OSStatus :=
  let step1 : platform_uart_driver_t × uart_hw_t :=
    match driver.rx_buffer with
    | some _ =>
      (driver, { hw with rx_stream := { hw.rx_stream with circ := true }, rxne_it := true })
    | none =>
      ({ driver with rx_size := size },
       { hw with rx_stream := { hw.rx_stream with circ := false } })
  let hw2 : uart_hw_t :=
    { step1.2 with rx_complete_pending := false, rx_error_pending := false }
  let hw3 : uart_hw_t := { hw2 with
    rx_stream := { hw2.rx_stream with ndtr := size, m0ar := data, en := true },
    dma_req_rx := true }
  if timeout > 0 then (step1.1, hw3, true, wait_res)
  else (step1.1, hw3, false, OSStatus.kNoErr)

/-- The chunk copy do-while loop of `platform_uart_receive_bytes` (source
lines 492-503): repeatedly query the contiguous used region at the head
(`ring_buffer_get_data`), copy at most the remaining transfer size out of
it with one `memcpy`, consume the copied bytes, and repeat until the
transfer size is exhausted.  `fuel` bounds the number of iterations;
`none` models the C loop never terminating (which happens exactly when
the buffer runs out of used bytes before the transfer size is
exhausted). -/
def receive_grab_loop : Nat → ring_buffer_t → Nat → Option (ring_buffer_t × List Nat)
  | 0, _, _ => none
  | fuel + 1, rb, transfer_size =>
    let avail := ring_buffer_get_data rb
    let bytes_available := min avail.2 transfer_size
    let chunk := (List.range bytes_available).map (fun i => rb.data.getD (avail.1 + i) 0)
    let rb1 := ring_buffer_consume rb bytes_available
    if transfer_size - bytes_available = 0 then some (rb1, chunk)
    else
      match receive_grab_loop fuel rb1 (transfer_size - bytes_available) with
      | none => none
      | some (rb2, rest) => some (rb2, chunk ++ rest)

/-- The buffered-mode receive loop of `platform_uart_receive_bytes`
(source lines 456-504).  `oracle` resolves each semaphore wait: the
first component is how many of the pending wire bytes (`incoming`) the
DMA writes into the ring buffer during the wait, the second is the
status the wait returns (`kNoErr` when the RX interrupt signalled,
`kTimeoutErr` on timeout).  `out` accumulates the bytes copied to the
caller, `err` is the local error variable, and `ok` is a ghost flag
recording that no DMA fill overran the consumer (an overrun corrupts
data; the half-capacity chunk policy exists to prevent it).  `fuel`
bounds the iterations, `none` modelling divergence of the C loops. -/
def receive_buffered_loop :
    Nat → platform_uart_driver_t → ring_buffer_t → List Nat →
    List (Nat × OSStatus) → Nat → List Nat → OSStatus → Bool →
    Option (platform_uart_driver_t × ring_buffer_t × List Nat × List Nat × OSStatus × Bool)
  | 0, _, _, _, _, _, _, _, _ => none
  | fuel + 1, driver, rb, incoming, oracle, expected_data_size, out, err, ok =>
    if expected_data_size = 0 then some (driver, rb, incoming, out, err, ok)
    else
      let transfer_size := min (rb.size / 2) expected_data_size
      let grab := fun (driver : platform_uart_driver_t) (rb : ring_buffer_t)
          (incoming : List Nat) (oracle : List (Nat × OSStatus)) (ok : Bool) =>
        match receive_grab_loop (transfer_size + 1) rb transfer_size with
        | none => none
        | some (rb1, chunk) =>
          receive_buffered_loop fuel driver rb1 incoming oracle
            (expected_data_size - transfer_size) (out ++ chunk)
            driver.last_receive_result ok
      if transfer_size > ring_buffer_used_space rb then
        let d1 : platform_uart_driver_t :=
          { driver with last_receive_result := OSStatus.kNoErr, rx_size := transfer_size }
        let fill := (oracle.headD (0, OSStatus.kTimeoutErr)).1
        let res := (oracle.headD (0, OSStatus.kTimeoutErr)).2
        let ok1 := ok &&
          decide (ring_buffer_used_space rb + (incoming.take fill).length + 1 ≤ rb.size)
        let rb1 := ring_buffer_fill rb (incoming.take fill)
        let d2 : platform_uart_driver_t := { d1 with rx_size := 0 }
        if res ≠ OSStatus.kNoErr then
          some (d2, rb1, incoming.drop fill, out, res, ok1)
        else
          grab d2 rb1 (incoming.drop fill) oracle.tail ok1
      else
        grab driver rb incoming oracle ok

/-- `platform_uart_receive_bytes` (source lines 446-513).  `data_in` is
the caller's buffer address (`0` = `NULL`).  In buffered mode the bytes
delivered to the caller are returned as a list; in direct mode the call
delegates to `receive_bytes` with the caller's timeout, `direct_wait_res`
resolving its optional wait.  The result carries the driver and hardware
state, the remaining wire bytes, the bytes delivered, the returned
status and the overrun-free ghost flag. -/
def platform_uart_receive_bytes (driver : platform_uart_driver_t) (hw : uart_hw_t)
    (data_in : Nat) (expected_data_size : Nat) (timeout_ms : Nat)
    (incoming : List Nat) (oracle : List (Nat × OSStatus)) (direct_wait_res : OSStatus) :
    Option (platform_uart_driver_t × uart_hw_t × List Nat × List Nat × OSStatus × Bool) :=
  if data_in = 0 ∨ expected_data_size = 0 then
    some (driver, hw, incoming, [], OSStatus.kParamErr, true)
  else
    match driver.rx_buffer with
    | some rb =>
      match receive_buffered_loop (expected_data_size + 1) driver rb incoming oracle
          expected_data_size [] OSStatus.kNoErr true with
      | none => none
      | some (d1, rb1, incoming1, out, err, ok) =>
        some ({ d1 with rx_buffer := some rb1 }, hw, incoming1, out, err, ok)
    | none =>
      let r := receive_bytes driver hw data_in expected_data_size timeout_ms direct_wait_res
      some (r.1, r.2.1, incoming, [], r.2.2.2, true)

/-- Values of the `platform_uart_parity_t` enumeration. -/
def NO_PARITY : Nat := 0
def ODD_PARITY : Nat := 1
def EVEN_PARITY : Nat := 2

/-- Values of the `platform_uart_flow_control_t` enumeration. -/
def FLOW_CONTROL_DISABLED : Nat := 0
def FLOW_CONTROL_CTS : Nat := 1
def FLOW_CONTROL_RTS : Nat := 2
def FLOW_CONTROL_CTS_RTS : Nat := 3

/-- The line configuration `platform_uart_config_t`.  Enumerated fields
are carried as their numeric codes so that out-of-range values (which
the source's switch defaults reject) are representable. -/
structure platform_uart_config_t where
  baud_rate : Nat
  data_width : Nat
  parity : Nat
  stop_bits : Nat
  flow_control : Nat
  flags : Nat
  deriving DecidableEq, Repr

/-- The validity check `init` applies to its optional ring buffer
argument: absent, or with a non-null backing store and non-zero
capacity. -/
def ring_buffer_arg_ok : Option ring_buffer_t → Prop
  | none => True
  | some rb => rb.buffer ≠ 0 ∧ rb.size ≠ 0

instance (o : Option ring_buffer_t) : Decidable (ring_buffer_arg_ok o) := by
  cases o <;> unfold ring_buffer_arg_ok <;> infer_instance

/-- A configuration whose parity and flow-control fields are legal enum
values (the two fields the source validates by switch). -/
def uart_config_valid (config : platform_uart_config_t) : Prop :=
  (config.parity = NO_PARITY ∨ config.parity = EVEN_PARITY ∨ config.parity = ODD_PARITY) ∧
  (config.flow_control = FLOW_CONTROL_DISABLED ∨ config.flow_control = FLOW_CONTROL_CTS ∨
   config.flow_control = FLOW_CONTROL_RTS ∨ config.flow_control = FLOW_CONTROL_CTS_RTS)

instance (config : platform_uart_config_t) : Decidable (uart_config_valid config) := by
  unfold uart_config_valid; infer_instance

/-- `platform_uart_init` (source lines 129-331), restricted to the state
this model tracks (driver fields, DMA streams, interrupt enables; pin
multiplexing, clocks and baud-rate registers are out of scope).  Returns
the new driver and hardware state, whether the call blocked, and the
status.  The optional ring buffer must have a non-null store and
non-zero capacity; invalid parity or flow-control values exit with a
parameter error.  With a ring buffer the driver is put in buffered mode
and `receive_bytes` is called with timeout `0` to prime continuous
reception; otherwise the RX-DMA-complete interrupt path is enabled. -/
def platform_uart_init (driver : platform_uart_driver_t)
    (config : platform_uart_config_t) (optional_ring_buffer : Option ring_buffer_t)
    (hw : uart_hw_t) :
    platform_uart_driver_t × uart_hw_t × Bool × OSStatus :=
  if ¬ ring_buffer_arg_ok optional_ring_buffer then
    (driver, hw, false, OSStatus.kParamErr)
  else
    let d1 : platform_uart_driver_t := { driver with
      rx_size := 0, tx_size := 0,
      last_transmit_result := OSStatus.kNoErr, last_receive_result := OSStatus.kNoErr }
    if ¬ (config.parity = NO_PARITY ∨ config.parity = EVEN_PARITY ∨
          config.parity = ODD_PARITY) then
      (d1, hw, false, OSStatus.kParamErr)
    else if ¬ (config.flow_control = FLOW_CONTROL_DISABLED ∨
          config.flow_control = FLOW_CONTROL_CTS ∨
          config.flow_control = FLOW_CONTROL_RTS ∨
          config.flow_control = FLOW_CONTROL_CTS_RTS) then
      (d1, hw, false, OSStatus.kParamErr)
    else
      let hw1 : uart_hw_t := { hw with
        usart_enabled := false, rxne_it := false, dma_req_tx := false,
        dma_req_rx := false, sr_tc := true }
      let hw2 : uart_hw_t := { hw1 with
        tx_stream := { circ := false, en := false, ndtr := 0xFFFF, m0ar := 0 },
        rx_stream := { circ := false, en := false, ndtr := 0xFFFF, m0ar := 0 } }
      let hw3 : uart_hw_t := { hw2 with nvic_tx_dma := true }
      let hw4 : uart_hw_t := { hw3 with
        tx_complete_pending := false, tx_error_pending := false, tx_dma_it := true }
      let hw5 : uart_hw_t := { hw4 with nvic_uart := true, dma_req_tx := false }
      let hw6 : uart_hw_t := { hw5 with usart_enabled := true }
      match optional_ring_buffer with
      | some rb =>
        let d2 : platform_uart_driver_t := { d1 with rx_buffer := some rb, rx_size := 0 }
        let r := receive_bytes d2 hw6 rb.buffer rb.size 0 OSStatus.kNoErr
        (r.1, r.2.1, r.2.2.1, OSStatus.kNoErr)
      | none =>
        let hw7 : uart_hw_t := { hw6 with nvic_rx_dma := true }
        let hw8 : uart_hw_t := { hw7 with
          rx_complete_pending := false, rx_error_pending := false, rx_dma_it := true }
        (d1, hw8, false, OSStatus.kNoErr)

/-- `platform_uart_deinit` (source lines 333-393): disables the USART and
resets it, resets both DMA streams, disables the DMA-source interrupts of
both streams, disables the TX DMA NVIC vector, disables the RXNE
peripheral interrupt, disables the RX DMA NVIC vector, and resets the
driver's counters and last-result fields to their idle values. -/
def platform_uart_deinit (driver : platform_uart_driver_t) (hw : uart_hw_t) :
    platform_uart_driver_t × uart_hw_t × OSStatus :=
  let hw1 : uart_hw_t := { hw with usart_enabled := false }
  let hw2 : uart_hw_t := { hw1 with
    rxne_it := false, dma_req_tx := false, dma_req_rx := false, sr_tc := true }
  let hw3 : uart_hw_t := { hw2 with
    tx_stream := { circ := false, en := false, ndtr := 0, m0ar := 0 },
    rx_stream := { circ := false, en := false, ndtr := 0, m0ar := 0 },
    tx_complete_pending := false, tx_error_pending := false,
    rx_complete_pending := false, rx_error_pending := false }
  let hw4 : uart_hw_t := { hw3 with tx_dma_it := false, rx_dma_it := false }
  let hw5 : uart_hw_t := { hw4 with nvic_tx_dma := false }
  let hw6 : uart_hw_t := { hw5 with rxne_it := false }
  let hw7 : uart_hw_t := { hw6 with nvic_rx_dma := false }
  let d1 : platform_uart_driver_t := { driver with
    rx_size := 0, tx_size := 0,
    last_transmit_result := OSStatus.kNoErr, last_receive_result := OSStatus.kNoErr }
  (d1, hw7, OSStatus.kNoErr)

/-- An idle driver instance, as after construction and before `init`. -/
def idle_driver : platform_uart_driver_t :=
  { rx_buffer := none, rx_size := 0, tx_size := 0,
    last_transmit_result := OSStatus.kNoErr, last_receive_result := OSStatus.kNoErr }

/-- A quiescent hardware state, used by concrete scenarios. -/
def quiet_hw : uart_hw_t :=
  { tx_stream := { circ := false, en := false, ndtr := 0, m0ar := 0 },
    rx_stream := { circ := false, en := false, ndtr := 0, m0ar := 0 },
    tx_complete_pending := false, tx_error_pending := false,
    rx_complete_pending := false, rx_error_pending := false,
    sr_tc := true, dma_req_tx := false, dma_req_rx := false,
    rxne_it := false, usart_enabled := false,
    nvic_tx_dma := false, nvic_uart := false, nvic_rx_dma := false,
    tx_dma_it := false, rx_dma_it := false }

/-- The wait environment of the transmit scenario of the spec: the TX DMA
transfer completes (its complete flag becomes pending and the TX DMA
interrupt handler runs), and the USART finishes shifting the last byte
out (`TC` becomes set). -/
def tx_complete_wait (s : platform_uart_driver_t × uart_hw_t) :
    platform_uart_driver_t × uart_hw_t :=
  let r := platform_uart_tx_dma_irq s.1 { s.2 with tx_complete_pending := true }
  (r.1, { r.2.1 with sr_tc := true })

theorem used_space_formula (s h2 t : Nat) (hh2 : h2 < s) (ht : t < s) :
    ((s - h2) + t) % s = if h2 ≤ t then t - h2 else s - h2 + t := by
  rcases le_or_lt h2 t with hle | hlt
  · have h1 : s - h2 + t = (t - h2) + s := by omega
    rw [if_pos hle, h1, Nat.add_mod_right, Nat.mod_eq_of_lt (by omega)]
  · rw [if_neg (by omega), Nat.mod_eq_of_lt (by omega)]

theorem ring_buffer_used_space_eq (rb : ring_buffer_t) (h : ring_buffer_wf rb) :
    ring_buffer_used_space rb =
      if rb.head ≤ rb.tail then rb.tail - rb.head else rb.size - rb.head + rb.tail := by
  obtain ⟨hlen, hh, ht⟩ := h
  exact used_space_formula rb.size rb.head rb.tail hh ht

theorem ring_buffer_used_space_lt (rb : ring_buffer_t) (h : ring_buffer_wf rb) :
    ring_buffer_used_space rb < rb.size := by
  have := ring_buffer_used_space_eq rb h
  obtain ⟨hlen, hh, ht⟩ := h
  rw [this]; split <;> omega

/-- The tail cursor sits exactly `used` slots past the head cursor. -/
theorem ring_buffer_tail_eq (rb : ring_buffer_t) (h : ring_buffer_wf rb) :
    (rb.head + ring_buffer_used_space rb) % rb.size = rb.tail := by
  have hu := ring_buffer_used_space_eq rb h
  obtain ⟨hlen, hh, ht⟩ := h
  rw [hu]; split
  · rw [Nat.mod_eq_of_lt (by omega)]; omega
  · have : rb.head + (rb.size - rb.head + rb.tail) = rb.tail + rb.size := by omega
    rw [this, Nat.add_mod_right, Nat.mod_eq_of_lt ht]

/-- Slot positions of distinct in-range offsets from the head are
distinct. -/
theorem ring_buffer_pos_inj (rb : ring_buffer_t) (h : ring_buffer_wf rb)
    {i j : Nat} (hi : i < rb.size) (hj : j < rb.size)
    (he : (rb.head + i) % rb.size = (rb.head + j) % rb.size) : i = j := by
  obtain ⟨hlen, hh, ht⟩ := h
  have hmod : i ≡ j [MOD rb.size] := Nat.ModEq.add_left_cancel' rb.head he
  have := hmod.eq_of_lt_of_lt hi hj
  exact this

theorem ring_buffer_consume_size (rb : ring_buffer_t) (c : Nat) :
    (ring_buffer_consume rb c).size = rb.size := rfl

theorem ring_buffer_consume_spec (rb : ring_buffer_t) (c : Nat) (h : ring_buffer_wf rb)
    (hc : c ≤ ring_buffer_used_space rb) :
    ring_buffer_wf (ring_buffer_consume rb c) ∧
    ring_buffer_used_space (ring_buffer_consume rb c) = ring_buffer_used_space rb - c ∧
    ring_buffer_content (ring_buffer_consume rb c) = (ring_buffer_content rb).drop c := by
  have hult := ring_buffer_used_space_lt rb h
  have hu := ring_buffer_used_space_eq rb h
  obtain ⟨hlen, hh, ht⟩ := h
  have hs : 0 < rb.size := by omega
  have hwf' : ring_buffer_wf (ring_buffer_consume rb c) :=
    ⟨hlen, Nat.mod_lt _ hs, ht⟩
  have hmod : (rb.head + c < rb.size ∧ (rb.head + c) % rb.size = rb.head + c) ∨
      (rb.size ≤ rb.head + c ∧ (rb.head + c) % rb.size = rb.head + c - rb.size) := by
    rcases Nat.lt_or_ge (rb.head + c) rb.size with h1 | h1
    · exact Or.inl ⟨h1, Nat.mod_eq_of_lt h1⟩
    · refine Or.inr ⟨h1, ?_⟩
      rw [Nat.mod_eq_sub_mod h1, Nat.mod_eq_of_lt (by omega)]
  have husd : ring_buffer_used_space (ring_buffer_consume rb c)
      = ring_buffer_used_space rb - c := by
    show ((rb.size - (rb.head + c) % rb.size) + rb.tail) % rb.size
      = ring_buffer_used_space rb - c
    rw [used_space_formula rb.size ((rb.head + c) % rb.size) rb.tail (Nat.mod_lt _ hs) ht]
    rw [hu] at hc
    rw [hu]
    rcases hmod with ⟨h1, hm⟩ | ⟨h1, hm⟩
    · rw [hm]
      split_ifs at hc ⊢ <;> omega
    · rw [hm]
      split_ifs at hc ⊢ <;> omega
  refine ⟨hwf', husd, ?_⟩
  apply List.ext_getElem
  · simp only [ring_buffer_content, List.length_map, List.length_range, List.length_drop, husd]
  · intro i h1 h2
    simp only [ring_buffer_content, List.getElem_drop, List.getElem_map, List.getElem_range]
    show rb.data.getD (((rb.head + c) % rb.size + i) % rb.size) 0
      = rb.data.getD ((rb.head + (c + i)) % rb.size) 0
    rw [Nat.mod_add_mod, Nat.add_assoc]

theorem ring_buffer_write_spec (rb : ring_buffer_t) (b : Nat) (h : ring_buffer_wf rb)
    (hroom : ring_buffer_used_space rb + 1 < rb.size) :
    ring_buffer_wf (ring_buffer_write rb b) ∧
    ring_buffer_used_space (ring_buffer_write rb b) = ring_buffer_used_space rb + 1 ∧
    ring_buffer_content (ring_buffer_write rb b) = ring_buffer_content rb ++ [b] := by
  have hult := ring_buffer_used_space_lt rb h
  have hu := ring_buffer_used_space_eq rb h
  have htail := ring_buffer_tail_eq rb h
  have hinj := fun {i j} hi hj he => ring_buffer_pos_inj rb h (i := i) (j := j) hi hj he
  obtain ⟨hlen, hh, ht⟩ := h
  have hs : 0 < rb.size := by omega
  have hwf' : ring_buffer_wf (ring_buffer_write rb b) := by
    refine ⟨?_, hh, Nat.mod_lt _ hs⟩
    show (rb.data.set rb.tail b).length = rb.size
    rw [List.length_set]; exact hlen
  have hmodt : (rb.tail + 1 < rb.size ∧ (rb.tail + 1) % rb.size = rb.tail + 1) ∨
      (rb.tail + 1 = rb.size ∧ (rb.tail + 1) % rb.size = 0) := by
    rcases Nat.lt_or_ge (rb.tail + 1) rb.size with h1 | h1
    · exact Or.inl ⟨h1, Nat.mod_eq_of_lt h1⟩
    · have h2 : rb.tail + 1 = rb.size := by omega
      exact Or.inr ⟨h2, by rw [h2, Nat.mod_self]⟩
  have husd : ring_buffer_used_space (ring_buffer_write rb b)
      = ring_buffer_used_space rb + 1 := by
    show ((rb.size - rb.head) + (rb.tail + 1) % rb.size) % rb.size
      = ring_buffer_used_space rb + 1
    rcases hmodt with ⟨h1, hm⟩ | ⟨h1, hm⟩
    · rw [hm, used_space_formula rb.size rb.head (rb.tail + 1) hh h1]
      rw [hu] at hroom
      rw [hu]
      split_ifs at hroom ⊢ <;> omega
    · rw [hm, Nat.add_zero]
      rw [hu] at hroom
      rw [hu]
      have hle : rb.head ≤ rb.tail := by omega
      rw [if_pos hle] at hroom
      rw [if_pos hle]
      rw [Nat.mod_eq_of_lt (by omega : rb.size - rb.head < rb.size)]
      omega
  refine ⟨hwf', husd, ?_⟩
  have hcont : ring_buffer_content (ring_buffer_write rb b)
      = (List.range (ring_buffer_used_space rb + 1)).map
          (fun i => (rb.data.set rb.tail b).getD ((rb.head + i) % rb.size) 0) := by
    unfold ring_buffer_content
    rw [husd]
    rfl
  rw [hcont, List.range_succ, List.map_append]
  congr 1
  · apply List.map_congr_left
    intro i hi
    rw [List.mem_range] at hi
    have hidx : (rb.head + i) % rb.size < rb.size := Nat.mod_lt _ hs
    have hlen' : (rb.data.set rb.tail b).length = rb.size := by
      rw [List.length_set]; exact hlen
    rw [List.getD_eq_getElem _ _ (by omega : (rb.head + i) % rb.size < (rb.data.set rb.tail b).length),
        List.getD_eq_getElem _ _ (by omega : (rb.head + i) % rb.size < rb.data.length)]
    apply List.getElem_set_ne
    intro hne
    have : ring_buffer_used_space rb = i := by
      apply hinj (ring_buffer_used_space_lt rb ⟨hlen, hh, ht⟩) (by omega)
      rw [htail]; exact hne
    omega
  · simp only [List.map_cons, List.map_nil]
    congr 1
    have hlen' : (rb.data.set rb.tail b).length = rb.size := by
      rw [List.length_set]; exact hlen
    rw [htail, List.getD_eq_getElem _ _ (by omega : rb.tail < (rb.data.set rb.tail b).length)]
    exact List.getElem_set_self _

theorem ring_buffer_fill_size (bs : List Nat) (rb : ring_buffer_t) :
    (ring_buffer_fill rb bs).size = rb.size := by
  induction bs generalizing rb with
  | nil => rfl
  | cons b bs ih => exact ih (ring_buffer_write rb b)

theorem ring_buffer_fill_spec (bs : List Nat) (rb : ring_buffer_t) (h : ring_buffer_wf rb)
    (hroom : ring_buffer_used_space rb + bs.length < rb.size) :
    ring_buffer_wf (ring_buffer_fill rb bs) ∧
    ring_buffer_used_space (ring_buffer_fill rb bs)
      = ring_buffer_used_space rb + bs.length ∧
    ring_buffer_content (ring_buffer_fill rb bs) = ring_buffer_content rb ++ bs := by
  induction bs generalizing rb with
  | nil => simpa [ring_buffer_fill] using h
  | cons b bs ih =>
    have hw := ring_buffer_write_spec rb b h (by simp at hroom; omega)
    obtain ⟨hwf1, hu1, hc1⟩ := hw
    have hroom1 : ring_buffer_used_space (ring_buffer_write rb b) + bs.length
        < (ring_buffer_write rb b).size := by
      rw [hu1]
      show _ < rb.size
      simp at hroom; omega
    have := ih (ring_buffer_write rb b) hwf1 hroom1
    obtain ⟨hwf2, hu2, hc2⟩ := this
    refine ⟨hwf2, ?_, ?_⟩
    · show ring_buffer_used_space (ring_buffer_fill (ring_buffer_write rb b) bs) = _
      rw [hu2, hu1]; simp; omega
    · show ring_buffer_content (ring_buffer_fill (ring_buffer_write rb b) bs) = _
      rw [hc2, hc1]; simp

/-- When the buffer holds at least the requested transfer size, the copy
loop terminates (within `transfer_size + 1` iterations, in fact at most
two), returns exactly the first `transfer_size` bytes of the buffer
content in order, and consumes them. -/
theorem receive_grab_loop_spec : ∀ (fuel : Nat) (rb : ring_buffer_t) (t : Nat),
    ring_buffer_wf rb → t ≤ ring_buffer_used_space rb → t + 1 ≤ fuel →
    receive_grab_loop fuel rb t =
      some ({ rb with head := (rb.head + t) % rb.size }, (ring_buffer_content rb).take t) := by
  intro fuel
  induction fuel with
  | zero => intro rb t hwf hle hfuel; omega
  | succ fuel ih =>
    intro rb t hwf hle hfuel
    have hult := ring_buffer_used_space_lt rb hwf
    obtain ⟨hlen, hh, ht⟩ := hwf
    have hs : 0 < rb.size := by omega
    rcases le_or_lt t (rb.size - rb.head) with hcase | hcase
    · -- one contiguous copy suffices
      have hba : min (min (rb.size - rb.head) (ring_buffer_used_space rb)) t = t := by
        omega
      show (if t - min (ring_buffer_get_data rb).2 t = 0 then _ else _) = _
      have hget : (ring_buffer_get_data rb).2
          = min (rb.size - rb.head) (ring_buffer_used_space rb) := rfl
      rw [hget, hba, Nat.sub_self, if_pos rfl]
      have hchunk : (List.range t).map (fun i => rb.data.getD ((ring_buffer_get_data rb).1 + i) 0)
          = (ring_buffer_content rb).take t := by
        unfold ring_buffer_content
        rw [← List.map_take, List.take_range, Nat.min_eq_left hle]
        apply List.map_congr_left
        intro i hi
        rw [List.mem_range] at hi
        show rb.data.getD (rb.head + i) 0 = rb.data.getD ((rb.head + i) % rb.size) 0
        rw [Nat.mod_eq_of_lt (by omega)]
      rw [hchunk]
      rfl
    · -- wraparound: copy up to the end of the store, then recurse from index 0
      have hba : min (min (rb.size - rb.head) (ring_buffer_used_space rb)) t
          = rb.size - rb.head := by
        omega
      have hrem : t - (rb.size - rb.head) ≠ 0 := by omega
      show (if t - min (ring_buffer_get_data rb).2 t = 0 then _ else _) = _
      have hget : (ring_buffer_get_data rb).2
          = min (rb.size - rb.head) (ring_buffer_used_space rb) := rfl
      rw [hget, hba, if_neg hrem]
      have hcspec := ring_buffer_consume_spec rb (rb.size - rb.head)
        ⟨hlen, hh, ht⟩ (by omega)
      obtain ⟨hwf1, hu1, hc1⟩ := hcspec
      have hhead1 : (ring_buffer_consume rb (rb.size - rb.head)).head = 0 := by
        show (rb.head + (rb.size - rb.head)) % rb.size = 0
        have : rb.head + (rb.size - rb.head) = rb.size := by omega
        rw [this, Nat.mod_self]
      have hrec := ih (ring_buffer_consume rb (rb.size - rb.head)) (t - (rb.size - rb.head))
        hwf1 (by rw [hu1]; omega) (by omega)
      rw [hrec]
      have hhead2 : ((ring_buffer_consume rb (rb.size - rb.head)).head
            + (t - (rb.size - rb.head))) % (ring_buffer_consume rb (rb.size - rb.head)).size
          = (rb.head + t) % rb.size := by
        rw [hhead1, ring_buffer_consume_size, Nat.zero_add]
        have h2 : rb.head + t = (t - (rb.size - rb.head)) + rb.size := by omega
        rw [h2, Nat.add_mod_right]
      dsimp only []
      rw [hhead2, hc1]
      have hchunk : (List.range (rb.size - rb.head)).map
            (fun i => rb.data.getD ((ring_buffer_get_data rb).1 + i) 0)
          = (ring_buffer_content rb).take (rb.size - rb.head) := by
        unfold ring_buffer_content
        rw [← List.map_take, List.take_range, Nat.min_eq_left (by omega)]
        apply List.map_congr_left
        intro i hi
        rw [List.mem_range] at hi
        show rb.data.getD (rb.head + i) 0 = rb.data.getD ((rb.head + i) % rb.size) 0
        rw [Nat.mod_eq_of_lt (by omega)]
      rw [hchunk, ← List.take_add,
        show (rb.size - rb.head) + (t - (rb.size - rb.head)) = t from by omega]
      rfl

/-- When the buffer holds fewer used bytes than the requested transfer
size, the copy loop never terminates (the C do-while spins with
`bytes_available = 0` forever): every fuel bound is exhausted. -/
theorem receive_grab_loop_stuck : ∀ (fuel : Nat) (rb : ring_buffer_t) (t : Nat),
    ring_buffer_wf rb → ring_buffer_used_space rb < t →
    receive_grab_loop fuel rb t = none := by
  intro fuel
  induction fuel with
  | zero => intro rb t hwf hlt; rfl
  | succ fuel ih =>
    intro rb t hwf hlt
    have hult := ring_buffer_used_space_lt rb hwf
    have hwfc := hwf
    obtain ⟨hlen, hh, ht⟩ := hwfc
    have hba : min (ring_buffer_get_data rb).2 t
        = min (min (rb.size - rb.head) (ring_buffer_used_space rb)) t := rfl
    have hba_le : min (ring_buffer_get_data rb).2 t ≤ ring_buffer_used_space rb := by
      rw [hba]; omega
    have hrem : t - min (ring_buffer_get_data rb).2 t ≠ 0 := by
      rw [hba]; omega
    show (if t - min (ring_buffer_get_data rb).2 t = 0 then _ else _) = none
    rw [if_neg hrem]
    have hcspec := ring_buffer_consume_spec rb (min (ring_buffer_get_data rb).2 t) hwf hba_le
    obtain ⟨hwf1, hu1, _⟩ := hcspec
    rw [ih (ring_buffer_consume rb (min (ring_buffer_get_data rb).2 t))
      (t - min (ring_buffer_get_data rb).2 t) hwf1 (by rw [hu1, hba]; omega)]

/-- C10: the bytes-available query dereferences `rx_buffer` with no null
guard and has no error branch: it is well defined — returning the ring
buffer's used space — exactly when a circular buffer was supplied at
initialization, and is undefined in direct mode where `rx_buffer` is
null. -/
theorem claim_C10_get_length_requires_buffer (driver : platform_uart_driver_t) :
    (platform_uart_get_length_in_buffer driver = none ↔ driver.rx_buffer = none) ∧
    (∀ rb, driver.rx_buffer = some rb →
      platform_uart_get_length_in_buffer driver = some (ring_buffer_used_space rb)) := by
  constructor
  · cases h : driver.rx_buffer <;> simp [platform_uart_get_length_in_buffer, h]
  · intro rb h
    simp [platform_uart_get_length_in_buffer, h]

theorem claim_C10_witness :
    platform_uart_get_length_in_buffer idle_driver = none ∧
    platform_uart_get_length_in_buffer
      { idle_driver with rx_buffer := some ⟨5, [0, 0], 2, 0, 1⟩ } = some 1 := by
  constructor
  · exact (claim_C10_get_length_requires_buffer idle_driver).1.mpr rfl
  · exact (claim_C10_get_length_requires_buffer
      { idle_driver with rx_buffer := some ⟨5, [0, 0], 2, 0, 1⟩ }).2 _ rfl

/-- C4: the TX DMA interrupt handler records success when the
transfer-complete flag is pending (and no error flag overrides it),
records a general error when any error flag is pending, clears the
flags it observed at the hardware source, leaves the result untouched
when no flag is pending, and signals the TX Completion Signal if and
only if `tx_size > 0` — irrespective of success or failure. -/
theorem claim_C4_tx_dma_irq (driver : platform_uart_driver_t) (hw : uart_hw_t) :
    (hw.tx_complete_pending = true → hw.tx_error_pending = false →
      (platform_uart_tx_dma_irq driver hw).1.last_transmit_result = OSStatus.kNoErr) ∧
    (hw.tx_error_pending = true →
      (platform_uart_tx_dma_irq driver hw).1.last_transmit_result = OSStatus.kGeneralErr) ∧
    (hw.tx_complete_pending = false → hw.tx_error_pending = false →
      (platform_uart_tx_dma_irq driver hw).1.last_transmit_result
        = driver.last_transmit_result) ∧
    (platform_uart_tx_dma_irq driver hw).2.1.tx_complete_pending = false ∧
    (platform_uart_tx_dma_irq driver hw).2.1.tx_error_pending = false ∧
    ((platform_uart_tx_dma_irq driver hw).2.2 = true ↔ driver.tx_size > 0) := by
  cases hc : hw.tx_complete_pending <;> cases he : hw.tx_error_pending <;>
    simp [platform_uart_tx_dma_irq, hc, he]

theorem claim_C4_witness :
    (platform_uart_tx_dma_irq { idle_driver with tx_size := 3 }
      { quiet_hw with tx_complete_pending := true }).1.last_transmit_result
        = OSStatus.kNoErr ∧
    (platform_uart_tx_dma_irq { idle_driver with tx_size := 3 }
      { quiet_hw with tx_complete_pending := true }).2.2 = true := by
  have h := claim_C4_tx_dma_irq { idle_driver with tx_size := 3 }
    { quiet_hw with tx_complete_pending := true }
  exact ⟨h.1 rfl rfl, h.2.2.2.2.2.mpr (by decide)⟩

/-- C5: the UART byte interrupt recomputes the ring buffer's tail cursor
as the capacity minus the DMA stream's remaining-transfer count and
signals the RX Completion Signal exactly when `rx_size > 0` and the used
space has reached `rx_size`; on signalling it clears `rx_size` to zero,
so a second run of the handler cannot signal again. -/
theorem claim_C5_uart_irq (driver : platform_uart_driver_t) (rb : ring_buffer_t)
    (hw : uart_hw_t) (hrb : driver.rx_buffer = some rb) :
    ∃ d1 sig, platform_uart_irq driver hw = some (d1, sig) ∧
      d1.rx_buffer = some { rb with tail := rb.size - hw.rx_stream.ndtr } ∧
      (sig = true ↔ driver.rx_size > 0 ∧
        ring_buffer_used_space { rb with tail := rb.size - hw.rx_stream.ndtr }
          ≥ driver.rx_size) ∧
      (sig = true → d1.rx_size = 0 ∧
        ∀ hw2 d2 sig2, platform_uart_irq d1 hw2 = some (d2, sig2) → sig2 = false) ∧
      (sig = false → d1.rx_size = driver.rx_size) := by
  have hred : platform_uart_irq driver hw =
      if driver.rx_size > 0 ∧ ring_buffer_used_space
            { rb with tail := rb.size - hw.rx_stream.ndtr } ≥ driver.rx_size then
        some ({ driver with
          rx_buffer := some { rb with tail := rb.size - hw.rx_stream.ndtr },
          rx_size := 0 }, true)
      else
        some ({ driver with
          rx_buffer := some { rb with tail := rb.size - hw.rx_stream.ndtr } }, false) := by
    unfold platform_uart_irq
    rw [hrb]
  by_cases hcond : driver.rx_size > 0 ∧ ring_buffer_used_space
      { rb with tail := rb.size - hw.rx_stream.ndtr } ≥ driver.rx_size
  · rw [hred, if_pos hcond]
    refine ⟨_, true, rfl, rfl, by simp [hcond], ?_, by simp⟩
    intro _
    refine ⟨rfl, ?_⟩
    intro hw2 d2 sig2 h2
    have h3 : platform_uart_irq ({ driver with
        rx_buffer := some { rb with tail := rb.size - hw.rx_stream.ndtr },
        rx_size := 0 } : platform_uart_driver_t) hw2
      = some ({ driver with
          rx_buffer := some { rb with tail := rb.size - hw2.rx_stream.ndtr },
          rx_size := 0 }, false) := by
      unfold platform_uart_irq
      simp
    rw [h3] at h2
    simp only [Option.some.injEq, Prod.mk.injEq] at h2
    exact h2.2.symm
  · rw [hred, if_neg hcond]
    exact ⟨_, false, rfl, rfl, by simp [hcond], by simp, fun _ => rfl⟩

theorem claim_C5_witness :
    ∃ d1, platform_uart_irq
        { idle_driver with rx_buffer := some ⟨5, [0, 0, 0, 0], 4, 0, 0⟩, rx_size := 2 }
        { quiet_hw with rx_stream := { quiet_hw.rx_stream with ndtr := 1 } }
      = some (d1, true) ∧ d1.rx_size = 0 := by
  obtain ⟨d1, sig, heq, htail, hiff, hsig, _⟩ :=
    claim_C5_uart_irq
      { idle_driver with rx_buffer := some ⟨5, [0, 0, 0, 0], 4, 0, 0⟩, rx_size := 2 }
      ⟨5, [0, 0, 0, 0], 4, 0, 0⟩
      { quiet_hw with rx_stream := { quiet_hw.rx_stream with ndtr := 1 } } rfl
  have hs : sig = true := hiff.mpr (by decide)
  subst hs
  exact ⟨d1, heq, (hsig rfl).1⟩

/-- C9: a receive call with a null data pointer or zero expected size
returns a parameter error and performs no other action: driver state,
hardware state and the pending wire bytes are all unchanged and no
bytes are delivered. -/
theorem claim_C9_receive_param_error (driver : platform_uart_driver_t) (hw : uart_hw_t)
    (data_in expected_data_size timeout_ms : Nat) (incoming : List Nat)
    (oracle : List (Nat × OSStatus)) (wres : OSStatus)
    (h : data_in = 0 ∨ expected_data_size = 0) :
    platform_uart_receive_bytes driver hw data_in expected_data_size timeout_ms
      incoming oracle wres =
      some (driver, hw, incoming, [], OSStatus.kParamErr, true) := by
  unfold platform_uart_receive_bytes
  rw [if_pos h]

theorem claim_C9_witness :
    platform_uart_receive_bytes idle_driver quiet_hw 0 5 100 [1, 2, 3] [] OSStatus.kNoErr
      = some (idle_driver, quiet_hw, [1, 2, 3], [], OSStatus.kParamErr, true) ∧
    platform_uart_receive_bytes idle_driver quiet_hw 7 0 100 [] [] OSStatus.kNoErr
      = some (idle_driver, quiet_hw, [], [], OSStatus.kParamErr, true) :=
  ⟨claim_C9_receive_param_error idle_driver quiet_hw 0 5 100 [1, 2, 3] [] OSStatus.kNoErr
      (Or.inl rfl),
   claim_C9_receive_param_error idle_driver quiet_hw 7 0 100 [] [] OSStatus.kNoErr
      (Or.inr rfl)⟩

/-- C1: transmit acquires the transmit mutex before validating its
parameters; a call with null data or zero size returns a parameter error
having changed nothing else; and on every exit path — the early
parameter-error exit included — the mutex is released after having been
acquired. -/
theorem claim_C1_transmit_mutex_param_error (driver : platform_uart_driver_t)
    (hw : uart_hw_t) (data_out size : Nat)
    (during_wait : platform_uart_driver_t × uart_hw_t → platform_uart_driver_t × uart_hw_t)
    (d1 : platform_uart_driver_t) (hw1 : uart_hw_t) (err : OSStatus)
    (tr : List uart_event)
    (hrun : platform_uart_transmit_bytes driver hw data_out size during_wait
      = some (d1, hw1, err, tr)) :
    ((data_out = 0 ∨ size = 0) → err = OSStatus.kParamErr ∧ d1 = driver ∧ hw1 = hw
      ∧ tr = transmit_param_error_trace) ∧
    (tr = transmit_param_error_trace ∨ tr = transmit_success_trace) ∧
    tr.indexOf uart_event.lock_tx_mutex < tr.indexOf uart_event.validate_params ∧
    uart_event.unlock_tx_mutex ∈ tr := by
  unfold platform_uart_transmit_bytes at hrun
  by_cases hp : data_out = 0 ∨ size = 0
  · rw [if_pos hp] at hrun
    simp only [Option.some.injEq, Prod.mk.injEq] at hrun
    obtain ⟨h1, h2, h3, h4⟩ := hrun
    subst h1; subst h2; subst h3; subst h4
    refine ⟨fun _ => ⟨rfl, rfl, rfl, rfl⟩, Or.inl rfl, by decide, by decide⟩
  · rw [if_neg hp] at hrun
    by_cases htc : (during_wait
        ({ driver with last_transmit_result := OSStatus.kGeneralErr, tx_size := size },
         { hw with
            tx_stream := { circ := false, en := true, ndtr := size, m0ar := data_out },
            tx_complete_pending := false, tx_error_pending := false,
            dma_req_tx := true, sr_tc := false })).2.sr_tc
    · rw [if_pos htc] at hrun
      simp only [Option.some.injEq, Prod.mk.injEq] at hrun
      obtain ⟨h1, h2, h3, h4⟩ := hrun
      subst h4
      exact ⟨fun h => absurd h hp, Or.inr rfl, by decide, by decide⟩
    · rw [if_neg htc] at hrun
      exact absurd hrun (by simp)

theorem claim_C1_witness :
    ∃ d1 hw1,
      platform_uart_transmit_bytes idle_driver quiet_hw 0 3 id
        = some (d1, hw1, OSStatus.kParamErr, transmit_param_error_trace) ∧
      transmit_param_error_trace.indexOf uart_event.lock_tx_mutex
        < transmit_param_error_trace.indexOf uart_event.validate_params ∧
      uart_event.unlock_tx_mutex ∈ transmit_param_error_trace := by
  have h := claim_C1_transmit_mutex_param_error idle_driver quiet_hw 0 3 id
    idle_driver quiet_hw OSStatus.kParamErr transmit_param_error_trace (by decide)
  obtain ⟨hparam, _, hord, hmem⟩ := h
  obtain ⟨he, hd, hh, ht⟩ := hparam (Or.inl rfl)
  exact ⟨idle_driver, quiet_hw, by decide, hord, hmem⟩

/-- C6: a valid transmit call that returns was woken by the TX Completion
Signal and then busy-waited until the hardware transmission-complete
status bit was set; it returns the last recorded transmit result and
leaves `tx_size` zero.  In particular, a 3-byte transmit whose
TX-DMA-complete interrupt fires during the wait (and whose transmission
then physically completes) returns success with `tx_size = 0`. -/
theorem claim_C6_transmit_completion (driver : platform_uart_driver_t) (hw : uart_hw_t)
    (data_out size : Nat)
    (during_wait : platform_uart_driver_t × uart_hw_t → platform_uart_driver_t × uart_hw_t)
    (d1 : platform_uart_driver_t) (hw1 : uart_hw_t) (err : OSStatus)
    (tr : List uart_event)
    (hdata : data_out ≠ 0) (hsize : size ≠ 0)
    (hrun : platform_uart_transmit_bytes driver hw data_out size during_wait
      = some (d1, hw1, err, tr)) :
    d1.tx_size = 0 ∧ err = d1.last_transmit_result ∧ hw1.sr_tc = true ∧
    (platform_uart_transmit_bytes idle_driver quiet_hw 1 3 tx_complete_wait).map
        (fun r => (r.2.2.1, r.1.tx_size, r.1.last_transmit_result))
      = some (OSStatus.kNoErr, 0, OSStatus.kNoErr) := by
  unfold platform_uart_transmit_bytes at hrun
  rw [if_neg (by tauto)] at hrun
  by_cases htc : (during_wait
      ({ driver with last_transmit_result := OSStatus.kGeneralErr, tx_size := size },
       { hw with
          tx_stream := { circ := false, en := true, ndtr := size, m0ar := data_out },
          tx_complete_pending := false, tx_error_pending := false,
          dma_req_tx := true, sr_tc := false })).2.sr_tc
  · rw [if_pos htc] at hrun
    simp only [Option.some.injEq, Prod.mk.injEq] at hrun
    obtain ⟨h1, h2, h3, h4⟩ := hrun
    subst h1; subst h2; subst h3
    exact ⟨rfl, rfl, htc, by decide⟩
  · rw [if_neg htc] at hrun
    exact absurd hrun (by simp)

theorem claim_C6_witness :
    platform_uart_transmit_bytes idle_driver quiet_hw 1 3 tx_complete_wait
      = some (idle_driver,
          { quiet_hw with tx_stream := { circ := false, en := true, ndtr := 3, m0ar := 1 } },
          OSStatus.kNoErr, transmit_success_trace) ∧
    idle_driver.tx_size = 0 ∧
    OSStatus.kNoErr = idle_driver.last_transmit_result ∧ OSStatus.kNoErr = OSStatus.kNoErr := by
  have h := claim_C6_transmit_completion idle_driver quiet_hw 1 3 tx_complete_wait
    idle_driver
    { quiet_hw with tx_stream := { circ := false, en := true, ndtr := 3, m0ar := 1 } }
    OSStatus.kNoErr transmit_success_trace (by decide) (by decide) (by decide)
  exact ⟨by decide, h.1, h.2.1, rfl⟩

/-- C7: with a circular buffer, `init` immediately arms a continuous
circular-mode receive DMA transfer covering the whole buffer and enables
the per-byte RXNE interrupt, without blocking — the internal
`receive_bytes` primitive never waits when its timeout is zero; with no
buffer, `init` leaves the receive DMA stream idle and enables the
RX-DMA-complete interrupt path instead. -/
theorem claim_C7_init_rx_paths (driver : platform_uart_driver_t)
    (config : platform_uart_config_t) (hw : uart_hw_t)
    (hvalid : uart_config_valid config) :
    (∀ rb : ring_buffer_t, rb.buffer ≠ 0 → rb.size ≠ 0 →
      (platform_uart_init driver config (some rb) hw).2.1.rx_stream.circ = true ∧
      (platform_uart_init driver config (some rb) hw).2.1.rx_stream.en = true ∧
      (platform_uart_init driver config (some rb) hw).2.1.rx_stream.ndtr = rb.size ∧
      (platform_uart_init driver config (some rb) hw).2.1.rx_stream.m0ar = rb.buffer ∧
      (platform_uart_init driver config (some rb) hw).2.1.rxne_it = true ∧
      (platform_uart_init driver config (some rb) hw).2.1.dma_req_rx = true ∧
      (platform_uart_init driver config (some rb) hw).2.2.1 = false ∧
      (platform_uart_init driver config (some rb) hw).2.2.2 = OSStatus.kNoErr ∧
      (platform_uart_init driver config (some rb) hw).1.rx_buffer = some rb) ∧
    ((platform_uart_init driver config none hw).2.1.rx_stream.en = false ∧
     (platform_uart_init driver config none hw).2.1.rx_stream.circ = false ∧
     (platform_uart_init driver config none hw).2.1.nvic_rx_dma = true ∧
     (platform_uart_init driver config none hw).2.1.rx_dma_it = true ∧
     (platform_uart_init driver config none hw).2.2.1 = false) ∧
    (∀ d hw2 data size wres, (receive_bytes d hw2 data size 0 wres).2.2.1 = false) := by
  obtain ⟨hp, hf⟩ := hvalid
  refine ⟨?_, ?_, ?_⟩
  · intro rb hb hsz
    rcases hp with hp | hp | hp <;> rcases hf with hf | hf | hf | hf <;>
      simp [platform_uart_init, receive_bytes, ring_buffer_arg_ok, hp, hf, hb, hsz,
        NO_PARITY, EVEN_PARITY, ODD_PARITY, FLOW_CONTROL_DISABLED, FLOW_CONTROL_CTS,
        FLOW_CONTROL_RTS, FLOW_CONTROL_CTS_RTS]
  · rcases hp with hp | hp | hp <;> rcases hf with hf | hf | hf | hf <;>
      simp [platform_uart_init, ring_buffer_arg_ok, hp, hf,
        NO_PARITY, EVEN_PARITY, ODD_PARITY, FLOW_CONTROL_DISABLED, FLOW_CONTROL_CTS,
        FLOW_CONTROL_RTS, FLOW_CONTROL_CTS_RTS]
  · intro d hw2 data size wres
    cases h : d.rx_buffer <;> simp [receive_bytes, h]

theorem claim_C7_witness :
    (platform_uart_init idle_driver
        ⟨115200, 0, NO_PARITY, 0, FLOW_CONTROL_DISABLED, 0⟩
        (some ⟨5, [0, 0, 0, 0], 4, 0, 0⟩) quiet_hw).2.1.rx_stream.circ = true ∧
    (platform_uart_init idle_driver
        ⟨115200, 0, NO_PARITY, 0, FLOW_CONTROL_DISABLED, 0⟩
        (some ⟨5, [0, 0, 0, 0], 4, 0, 0⟩) quiet_hw).2.1.rx_stream.ndtr = 4 ∧
    (platform_uart_init idle_driver
        ⟨115200, 0, NO_PARITY, 0, FLOW_CONTROL_DISABLED, 0⟩
        (some ⟨5, [0, 0, 0, 0], 4, 0, 0⟩) quiet_hw).2.2.1 = false ∧
    (platform_uart_init idle_driver
        ⟨115200, 0, NO_PARITY, 0, FLOW_CONTROL_DISABLED, 0⟩
        none quiet_hw).2.1.nvic_rx_dma = true := by
  have h := claim_C7_init_rx_paths idle_driver
    ⟨115200, 0, NO_PARITY, 0, FLOW_CONTROL_DISABLED, 0⟩ quiet_hw
    ⟨Or.inl rfl, Or.inl rfl⟩
  obtain ⟨hbuf, hnone, _⟩ := h
  obtain ⟨h1, h2, h3, h4, h5, h6, h7, h8, h9⟩ :=
    hbuf ⟨5, [0, 0, 0, 0], 4, 0, 0⟩ (by decide) (by decide)
  exact ⟨h1, h3, h7, hnone.2.2.1⟩

/-- C8: `deinit` disables the interrupt sources `init` enabled — the TX
DMA stream interrupts, the peripheral-level RXNE interrupt, and the RX
DMA path — and resets both counters to zero and both last-result fields
to success, so for every valid configuration `init` followed immediately
by `deinit` leaves the driver instance's counters and results in the
same idle values they held before `init`. -/
theorem claim_C8_init_deinit_idle (driver : platform_uart_driver_t)
    (config : platform_uart_config_t) (opt : Option ring_buffer_t) (hw : uart_hw_t)
    (hvalid : uart_config_valid config) (harg : ring_buffer_arg_ok opt)
    (hidle : driver.rx_size = 0 ∧ driver.tx_size = 0 ∧
      driver.last_transmit_result = OSStatus.kNoErr ∧
      driver.last_receive_result = OSStatus.kNoErr) :
    (platform_uart_init driver config opt hw).2.2.2 = OSStatus.kNoErr ∧
    (platform_uart_deinit (platform_uart_init driver config opt hw).1
        (platform_uart_init driver config opt hw).2.1).2.2 = OSStatus.kNoErr ∧
    (platform_uart_deinit (platform_uart_init driver config opt hw).1
        (platform_uart_init driver config opt hw).2.1).1.rx_size = driver.rx_size ∧
    (platform_uart_deinit (platform_uart_init driver config opt hw).1
        (platform_uart_init driver config opt hw).2.1).1.tx_size = driver.tx_size ∧
    (platform_uart_deinit (platform_uart_init driver config opt hw).1
        (platform_uart_init driver config opt hw).2.1).1.last_transmit_result
      = driver.last_transmit_result ∧
    (platform_uart_deinit (platform_uart_init driver config opt hw).1
        (platform_uart_init driver config opt hw).2.1).1.last_receive_result
      = driver.last_receive_result ∧
    (platform_uart_deinit (platform_uart_init driver config opt hw).1
        (platform_uart_init driver config opt hw).2.1).2.1.tx_dma_it = false ∧
    (platform_uart_deinit (platform_uart_init driver config opt hw).1
        (platform_uart_init driver config opt hw).2.1).2.1.rxne_it = false ∧
    (platform_uart_deinit (platform_uart_init driver config opt hw).1
        (platform_uart_init driver config opt hw).2.1).2.1.rx_dma_it = false ∧
    (platform_uart_deinit (platform_uart_init driver config opt hw).1
        (platform_uart_init driver config opt hw).2.1).2.1.nvic_tx_dma = false ∧
    (platform_uart_deinit (platform_uart_init driver config opt hw).1
        (platform_uart_init driver config opt hw).2.1).2.1.nvic_rx_dma = false ∧
    (platform_uart_deinit (platform_uart_init driver config opt hw).1
        (platform_uart_init driver config opt hw).2.1).2.1.usart_enabled = false ∧
    (platform_uart_deinit (platform_uart_init driver config opt hw).1
        (platform_uart_init driver config opt hw).2.1).2.1.tx_stream.en = false ∧
    (platform_uart_deinit (platform_uart_init driver config opt hw).1
        (platform_uart_init driver config opt hw).2.1).2.1.rx_stream.en = false := by
  obtain ⟨hp, hf⟩ := hvalid
  obtain ⟨h1, h2, h3, h4⟩ := hidle
  rcases opt with _ | rb
  · rcases hp with hp | hp | hp <;> rcases hf with hf | hf | hf | hf <;>
      simp [platform_uart_init, platform_uart_deinit, ring_buffer_arg_ok,
        hp, hf, h1, h2, h3, h4,
        NO_PARITY, EVEN_PARITY, ODD_PARITY, FLOW_CONTROL_DISABLED, FLOW_CONTROL_CTS,
        FLOW_CONTROL_RTS, FLOW_CONTROL_CTS_RTS]
  · have harg2 : rb.buffer ≠ 0 ∧ rb.size ≠ 0 := harg
    rcases hp with hp | hp | hp <;> rcases hf with hf | hf | hf | hf <;>
      simp [platform_uart_init, platform_uart_deinit, receive_bytes, ring_buffer_arg_ok,
        hp, hf, h1, h2, h3, h4, harg2.1, harg2.2,
        NO_PARITY, EVEN_PARITY, ODD_PARITY, FLOW_CONTROL_DISABLED, FLOW_CONTROL_CTS,
        FLOW_CONTROL_RTS, FLOW_CONTROL_CTS_RTS]

theorem claim_C8_witness :
    (platform_uart_init idle_driver
        ⟨9600, 0, EVEN_PARITY, 0, FLOW_CONTROL_CTS_RTS, 0⟩ none quiet_hw).2.2.2
      = OSStatus.kNoErr ∧
    (platform_uart_deinit
        (platform_uart_init idle_driver
          ⟨9600, 0, EVEN_PARITY, 0, FLOW_CONTROL_CTS_RTS, 0⟩ none quiet_hw).1
        (platform_uart_init idle_driver
          ⟨9600, 0, EVEN_PARITY, 0, FLOW_CONTROL_CTS_RTS, 0⟩ none quiet_hw).2.1).1.rx_size
      = idle_driver.rx_size ∧
    (platform_uart_deinit
        (platform_uart_init idle_driver
          ⟨9600, 0, EVEN_PARITY, 0, FLOW_CONTROL_CTS_RTS, 0⟩ none quiet_hw).1
        (platform_uart_init idle_driver
          ⟨9600, 0, EVEN_PARITY, 0, FLOW_CONTROL_CTS_RTS, 0⟩ none quiet_hw).2.1).2.1.rxne_it
      = false := by
  have h := claim_C8_init_deinit_idle idle_driver
    ⟨9600, 0, EVEN_PARITY, 0, FLOW_CONTROL_CTS_RTS, 0⟩ none quiet_hw
    ⟨Or.inr (Or.inl rfl), Or.inr (Or.inr (Or.inr rfl))⟩ trivial
    ⟨rfl, rfl, rfl, rfl⟩
  exact ⟨h.1, h.2.2.1, h.2.2.2.2.2.2.2.1⟩

theorem ring_buffer_content_length (rb : ring_buffer_t) :
    (ring_buffer_content rb).length = ring_buffer_used_space rb := by
  simp [ring_buffer_content]

theorem take_chunk_append (L I : List Nat) (t n : Nat) (ht : t ≤ L.length) (htn : t ≤ n) :
    (L ++ I).take n = L.take t ++ (L.drop t ++ I).take (n - t) := by
  conv_lhs => rw [show n = t + (n - t) from by omega]
  rw [List.take_add, List.take_append_of_le_length ht, List.drop_append_of_le_length ht]

theorem drop_chunk_append (L I : List Nat) (t n : Nat) (ht : t ≤ L.length) (htn : t ≤ n) :
    (L ++ I).drop n = (L.drop t ++ I).drop (n - t) := by
  rw [← List.drop_append_of_le_length ht, List.drop_drop]
  congr 1
  omega

theorem ring_buffer_write_wf (rb : ring_buffer_t) (b : Nat) (h : ring_buffer_wf rb) :
    ring_buffer_wf (ring_buffer_write rb b) := by
  obtain ⟨hlen, hh, ht⟩ := h
  refine ⟨?_, hh, Nat.mod_lt _ (by omega)⟩
  show (rb.data.set rb.tail b).length = rb.size
  rw [List.length_set]; exact hlen

theorem ring_buffer_fill_wf (bs : List Nat) (rb : ring_buffer_t) (h : ring_buffer_wf rb) :
    ring_buffer_wf (ring_buffer_fill rb bs) := by
  induction bs generalizing rb with
  | nil => exact h
  | cons b bs ih => exact ih _ (ring_buffer_write_wf rb b h)

/-- A run of the buffered receive loop whose overrun ghost flag starts
false finishes with it false: the flag is monotone. -/
theorem receive_buffered_loop_ok_false : ∀ (fuel : Nat) (d : platform_uart_driver_t)
    (rb : ring_buffer_t) (incoming : List Nat) (oracle : List (Nat × OSStatus))
    (n : Nat) (out : List Nat) (err : OSStatus)
    (d1 : platform_uart_driver_t) (rb1 : ring_buffer_t) (inc1 out1 : List Nat)
    (err1 : OSStatus) (ok1 : Bool),
    receive_buffered_loop fuel d rb incoming oracle n out err false
      = some (d1, rb1, inc1, out1, err1, ok1) → ok1 = false := by
  intro fuel
  induction fuel with
  | zero =>
    intro d rb incoming oracle n out err d1 rb1 inc1 out1 err1 ok1 h
    exact absurd h (by simp [receive_buffered_loop])
  | succ fuel ih =>
    intro d rb incoming oracle n out err d1 rb1 inc1 out1 err1 ok1 h
    simp only [receive_buffered_loop, Bool.false_and] at h
    split at h
    · simp only [Option.some.injEq, Prod.mk.injEq] at h
      exact h.2.2.2.2.2.symm
    · split at h
      · split at h
        · simp only [Option.some.injEq, Prod.mk.injEq] at h
          exact h.2.2.2.2.2.symm
        · split at h
          · exact absurd h (by simp)
          · exact ih _ _ _ _ _ _ _ _ _ _ _ _ _ h
      · split at h
        · exact absurd h (by simp)
        · exact ih _ _ _ _ _ _ _ _ _ _ _ _ _ h

/-- The record the copy loop returns is the consume of its input. -/
theorem grab_result_eq_consume (rb : ring_buffer_t) (t : Nat) :
    ({ rb with head := (rb.head + t) % rb.size } : ring_buffer_t)
      = ring_buffer_consume rb t := rfl

/-- Main correctness of the buffered receive loop: a run that returns
without error and without a DMA overrun delivers exactly the next `n`
bytes of the logical byte queue — the buffer's current content followed
by the wire bytes, in order — appended to the bytes already delivered,
and leaves the queue equal to what it was with those `n` bytes removed.
The buffer stays well formed, its capacity is unchanged, and the
driver's buffered-mode fields are restored. -/
theorem receive_buffered_loop_spec : ∀ (fuel : Nat) (d : platform_uart_driver_t)
    (rb : ring_buffer_t) (incoming : List Nat) (oracle : List (Nat × OSStatus))
    (n : Nat) (out : List Nat)
    (d1 : platform_uart_driver_t) (rb1 : ring_buffer_t) (inc1 out1 : List Nat),
    ring_buffer_wf rb → d.last_receive_result = OSStatus.kNoErr →
    receive_buffered_loop fuel d rb incoming oracle n out OSStatus.kNoErr true
      = some (d1, rb1, inc1, out1, OSStatus.kNoErr, true) →
    out1 = out ++ (ring_buffer_content rb ++ incoming).take n ∧
    ring_buffer_content rb1 ++ inc1 = (ring_buffer_content rb ++ incoming).drop n ∧
    ring_buffer_wf rb1 ∧ rb1.size = rb.size ∧
    d1.last_receive_result = OSStatus.kNoErr ∧ d1.rx_buffer = d.rx_buffer := by
  intro fuel
  induction fuel with
  | zero =>
    intro d rb incoming oracle n out d1 rb1 inc1 out1 hwf hlr h
    exact absurd h (by simp [receive_buffered_loop])
  | succ fuel ih =>
    intro d rb incoming oracle n out d1 rb1 inc1 out1 hwf hlr h
    simp only [receive_buffered_loop, Bool.true_and] at h
    by_cases hn : n = 0
    · rw [if_pos hn] at h
      simp only [Option.some.injEq, Prod.mk.injEq] at h
      obtain ⟨hd, hrbe, hince, houte, _⟩ := h
      subst hd; subst hrbe; subst hince; subst houte; subst hn
      exact ⟨by simp, by simp, hwf, rfl, hlr, rfl⟩
    · rw [if_neg hn] at h
      have htr_n : min (rb.size / 2) n ≤ n := Nat.min_le_right _ _
      by_cases hwait : min (rb.size / 2) n > ring_buffer_used_space rb
      · rw [if_pos hwait] at h
        rcases oracle with _ | ⟨⟨k, res⟩, oracle'⟩
        · -- empty oracle: the wait "returns" the timeout default, so the
          -- run cannot have ended with kNoErr
          simp only [List.headD, ne_eq] at h
          rw [if_pos (by simp)] at h
          simp only [Option.some.injEq, Prod.mk.injEq] at h
          exact absurd h.2.2.2.2.1 (by simp)
        · simp only [List.headD, List.tail] at h
          by_cases hres : res ≠ OSStatus.kNoErr
          · rw [if_pos hres] at h
            simp only [Option.some.injEq, Prod.mk.injEq] at h
            exact absurd h.2.2.2.2.1 hres
          · rw [if_neg hres] at h
            push_neg at hres
            by_cases hP : ring_buffer_used_space rb + (incoming.take k).length + 1
                ≤ rb.size
            · rw [decide_eq_true hP] at h
              obtain ⟨hwfF, huF, hcF⟩ := ring_buffer_fill_spec (incoming.take k) rb hwf
                (by omega)
              by_cases hused : ring_buffer_used_space
                  (ring_buffer_fill rb (incoming.take k)) < min (rb.size / 2) n
              · rw [receive_grab_loop_stuck _ _ _ hwfF hused] at h
                exact absurd h (by simp)
              · push_neg at hused
                rw [receive_grab_loop_spec (min (rb.size / 2) n + 1) _ _ hwfF hused
                  (Nat.le_refl _)] at h
                simp only [] at h
                obtain ⟨hwfc, huc, hcc⟩ := ring_buffer_consume_spec
                  (ring_buffer_fill rb (incoming.take k)) (min (rb.size / 2) n)
                  hwfF hused
                rw [grab_result_eq_consume] at h
                have hrec := ih _ _ _ _ _ _ _ _ _ _ hwfc rfl h
                obtain ⟨hout1, hq1, hwf1, hsz1, hlr1, hbuf1⟩ := hrec
                have hqF : ring_buffer_content (ring_buffer_fill rb (incoming.take k))
                    ++ incoming.drop k = ring_buffer_content rb ++ incoming := by
                  rw [hcF, List.append_assoc, List.take_append_drop]
                have hlenF : min (rb.size / 2) n
                    ≤ (ring_buffer_content (ring_buffer_fill rb (incoming.take k))).length := by
                  rw [ring_buffer_content_length]; omega
                refine ⟨?_, ?_, hwf1, ?_, hlr1, hbuf1⟩
                · rw [hout1, hcc, ← hqF,
                    take_chunk_append _ _ _ _ hlenF htr_n, List.append_assoc]
                · rw [hq1, hcc, ← hqF, drop_chunk_append _ _ _ _ hlenF htr_n]
                · rw [hsz1]
                  show (ring_buffer_fill rb (incoming.take k)).size = rb.size
                  exact ring_buffer_fill_size _ _
            · rw [decide_eq_false hP] at h
              by_cases hused : ring_buffer_used_space
                  (ring_buffer_fill rb (incoming.take k)) < min (rb.size / 2) n
              · rw [receive_grab_loop_stuck _ _ _
                    (ring_buffer_fill_wf (incoming.take k) rb hwf) hused] at h
                exact absurd h (by simp)
              · push_neg at hused
                exfalso
                rcases hg : receive_grab_loop (min (rb.size / 2) n + 1)
                    (ring_buffer_fill rb (incoming.take k)) (min (rb.size / 2) n) with
                  _ | ⟨rbg, chunk⟩
                · rw [hg] at h; exact absurd h (by simp)
                · rw [hg] at h
                  simp only [] at h
                  have := receive_buffered_loop_ok_false _ _ _ _ _ _ _ _ _ _ _ _ _ _ h
                  exact absurd this (by simp)
      · rw [if_neg hwait] at h
        push_neg at hwait
        by_cases hused : ring_buffer_used_space rb < min (rb.size / 2) n
        · omega
        · push_neg at hused
          rw [receive_grab_loop_spec (min (rb.size / 2) n + 1) _ _ hwf hused
            (Nat.le_refl _)] at h
          simp only [] at h
          rw [hlr] at h
          obtain ⟨hwfc, huc, hcc⟩ := ring_buffer_consume_spec rb (min (rb.size / 2) n)
            hwf hused
          rw [grab_result_eq_consume] at h
          have hrec := ih _ _ _ _ _ _ _ _ _ _ hwfc hlr h
          obtain ⟨hout1, hq1, hwf1, hsz1, hlr1, hbuf1⟩ := hrec
          have hlen : min (rb.size / 2) n ≤ (ring_buffer_content rb).length := by
            rw [ring_buffer_content_length]; omega
          refine ⟨?_, ?_, hwf1, hsz1, hlr1, hbuf1⟩
          · rw [hout1, hcc, take_chunk_append _ _ _ _ hlen htr_n, List.append_assoc]
          · rw [hq1, hcc, drop_chunk_append _ _ _ _ hlen htr_n]

/-- Any run of the buffered receive loop that returns a timeout error
(which only the semaphore-wait branch can produce, given that the error
accumulator and `last_receive_result` do not already hold one) has reset
`rx_size` to zero before returning. -/
theorem receive_buffered_loop_timeout_rx_size : ∀ (fuel : Nat)
    (d : platform_uart_driver_t) (rb : ring_buffer_t) (incoming : List Nat)
    (oracle : List (Nat × OSStatus)) (n : Nat) (out : List Nat) (err : OSStatus)
    (ok : Bool) (d1 : platform_uart_driver_t) (rb1 : ring_buffer_t)
    (inc1 out1 : List Nat) (ok1 : Bool),
    d.last_receive_result ≠ OSStatus.kTimeoutErr → err ≠ OSStatus.kTimeoutErr →
    receive_buffered_loop fuel d rb incoming oracle n out err ok
      = some (d1, rb1, inc1, out1, OSStatus.kTimeoutErr, ok1) →
    d1.rx_size = 0 := by
  intro fuel
  induction fuel with
  | zero =>
    intro d rb incoming oracle n out err ok d1 rb1 inc1 out1 ok1 hd herr h
    exact absurd h (by simp [receive_buffered_loop])
  | succ fuel ih =>
    intro d rb incoming oracle n out err ok d1 rb1 inc1 out1 ok1 hd herr h
    simp only [receive_buffered_loop] at h
    split at h
    · simp only [Option.some.injEq, Prod.mk.injEq] at h
      exact absurd h.2.2.2.2.1 herr
    · split at h
      · split at h
        · simp only [Option.some.injEq, Prod.mk.injEq] at h
          rw [← h.1]
        · split at h
          · exact absurd h (by simp)
          · exact ih _ _ _ _ _ _ _ _ _ _ _ _ _ (by simp) (by simp) h
      · split at h
        · exact absurd h (by simp)
        · exact ih _ _ _ _ _ _ _ _ _ _ _ _ _ hd hd h

/-- C2: a buffered receive whose semaphore wait times out resets
`rx_size` to zero and returns the timeout error immediately — no bytes
are delivered for the current or any further chunk — and with `rx_size`
zero a subsequent unrelated interrupt does not signal; in general every
timeout return of the receive loop leaves `rx_size` zero. -/
theorem claim_C2_receive_timeout (driver : platform_uart_driver_t)
    (rb : ring_buffer_t) (hw : uart_hw_t) (data_in n timeout_ms k : Nat)
    (incoming : List Nat) (rest : List (Nat × OSStatus)) (wres : OSStatus)
    (hrb : driver.rx_buffer = some rb) (hdata : data_in ≠ 0) (hn : n ≠ 0)
    (hwait : ring_buffer_used_space rb < min (rb.size / 2) n) :
    (platform_uart_receive_bytes driver hw data_in n timeout_ms incoming
        ((k, OSStatus.kTimeoutErr) :: rest) wres
      = some ({ driver with
            rx_buffer := some (ring_buffer_fill rb (incoming.take k)),
            rx_size := 0, last_receive_result := OSStatus.kNoErr },
          hw, incoming.drop k, [], OSStatus.kTimeoutErr,
          decide (ring_buffer_used_space rb + (incoming.take k).length + 1 ≤ rb.size))) ∧
    (∀ hw2 d2 sig2, platform_uart_irq
        ({ driver with
            rx_buffer := some (ring_buffer_fill rb (incoming.take k)),
            rx_size := 0, last_receive_result := OSStatus.kNoErr }
          : platform_uart_driver_t) hw2
        = some (d2, sig2) → sig2 = false) ∧
    (∀ fuel d0 rb0 inc0 oracle0 n0 out0 err0 ok0 d1 rb1 inc1 out1 ok1,
      d0.last_receive_result ≠ OSStatus.kTimeoutErr → err0 ≠ OSStatus.kTimeoutErr →
      receive_buffered_loop fuel d0 rb0 inc0 oracle0 n0 out0 err0 ok0
        = some (d1, rb1, inc1, out1, OSStatus.kTimeoutErr, ok1) → d1.rx_size = 0) := by
  refine ⟨?_, ?_, ?_⟩
  · have hloop : receive_buffered_loop (n + 1) driver rb incoming
        ((k, OSStatus.kTimeoutErr) :: rest) n [] OSStatus.kNoErr true
      = some ({ driver with last_receive_result := OSStatus.kNoErr, rx_size := 0 },
          ring_buffer_fill rb (incoming.take k), incoming.drop k, [],
          OSStatus.kTimeoutErr,
          decide (ring_buffer_used_space rb + (incoming.take k).length + 1
            ≤ rb.size)) := by
      simp only [receive_buffered_loop, Bool.true_and, List.headD, List.tail]
      rw [if_neg hn, if_pos hwait, if_pos (by simp)]
    unfold platform_uart_receive_bytes
    rw [if_neg (by tauto), hrb]
    dsimp only []
    rw [hloop]
  · intro hw2 d2 sig2 h2
    unfold platform_uart_irq at h2
    simp only [] at h2
    rw [if_neg (by simp)] at h2
    simp only [Option.some.injEq, Prod.mk.injEq] at h2
    exact h2.2.symm
  · intro fuel d0 rb0 inc0 oracle0 n0 out0 err0 ok0 d1 rb1 inc1 out1 ok1 hd herr h
    exact receive_buffered_loop_timeout_rx_size fuel d0 rb0 inc0 oracle0 n0 out0
      err0 ok0 d1 rb1 inc1 out1 ok1 hd herr h

theorem claim_C2_witness :
    platform_uart_receive_bytes
        { idle_driver with rx_buffer := some ⟨1, [0, 0, 0, 0], 4, 0, 0⟩ }
        quiet_hw 7 2 100 [9] [(1, OSStatus.kTimeoutErr)] OSStatus.kNoErr
      = some ({ idle_driver with
            rx_buffer := some (ring_buffer_fill ⟨1, [0, 0, 0, 0], 4, 0, 0⟩ [9]),
            rx_size := 0, last_receive_result := OSStatus.kNoErr },
          quiet_hw, [], [], OSStatus.kTimeoutErr, true) ∧
    ({ idle_driver with
        rx_buffer := some (ring_buffer_fill ⟨1, [0, 0, 0, 0], 4, 0, 0⟩ [9]),
        rx_size := 0, last_receive_result := OSStatus.kNoErr }
      : platform_uart_driver_t).rx_size = 0 := by
  have h := claim_C2_receive_timeout
    { idle_driver with rx_buffer := some ⟨1, [0, 0, 0, 0], 4, 0, 0⟩ }
    ⟨1, [0, 0, 0, 0], 4, 0, 0⟩ quiet_hw 7 2 100 1 [9] [] OSStatus.kNoErr
    rfl (by decide) (by decide) (by decide)
  exact ⟨h.1.trans (by rfl), rfl⟩

/-- Top-level characterization of a successful, overrun-free buffered
receive: it delivers the next `n` bytes of the buffer-content-plus-wire
queue and leaves the queue with those bytes removed. -/
theorem receive_top_spec (d : platform_uart_driver_t) (rb : ring_buffer_t)
    (hw : uart_hw_t) (addr n t : Nat) (incoming : List Nat)
    (oracle : List (Nat × OSStatus)) (w : OSStatus)
    (d1 : platform_uart_driver_t) (hw1 : uart_hw_t) (inc1 out1 : List Nat)
    (hrb : d.rx_buffer = some rb) (hwf : ring_buffer_wf rb)
    (hlr : d.last_receive_result = OSStatus.kNoErr)
    (haddr : addr ≠ 0) (hn : n ≠ 0)
    (h : platform_uart_receive_bytes d hw addr n t incoming oracle w
      = some (d1, hw1, inc1, out1, OSStatus.kNoErr, true)) :
    out1 = (ring_buffer_content rb ++ incoming).take n ∧
    (∃ rb1, d1.rx_buffer = some rb1 ∧ ring_buffer_wf rb1 ∧
      ring_buffer_content rb1 ++ inc1 = (ring_buffer_content rb ++ incoming).drop n) ∧
    d1.last_receive_result = OSStatus.kNoErr ∧ hw1 = hw := by
  unfold platform_uart_receive_bytes at h
  rw [if_neg (by tauto), hrb] at h
  dsimp only [] at h
  rcases hl : receive_buffered_loop (n + 1) d rb incoming oracle n [] OSStatus.kNoErr
      true with _ | ⟨dl, rbl, incl, outl, errl, okl⟩
  · rw [hl] at h
    exact absurd h (by simp)
  · rw [hl] at h
    dsimp only [] at h
    simp only [Option.some.injEq, Prod.mk.injEq] at h
    obtain ⟨hd1, hhw1, hinc1, hout1, herr, hok⟩ := h
    subst herr; subst hok; subst hinc1
    have hspec := receive_buffered_loop_spec (n + 1) d rb incoming oracle n []
      dl rbl incl outl hwf hlr hl
    obtain ⟨ho, hq, hwf1, hsz, hlr1, hbuf1⟩ := hspec
    refine ⟨?_, ⟨rbl, ?_, hwf1, hq⟩, ?_, hhw1.symm⟩
    · rw [← hout1, ho, List.nil_append]
    · rw [← hd1]
    · rw [← hd1]; exact hlr1

/-- C3: buffered receive serves the request in chunks of
min(half the buffer capacity, bytes remaining), each chunk copied out of
the circular buffer contiguously and consumed; the chunking is
transparent — two receive calls for `n1` and `n2` bytes return together,
in order, exactly the bytes a single call for `n1 + n2` bytes returns,
namely the next bytes of the buffer-plus-wire queue. -/
theorem claim_C3_receive_chunking (d : platform_uart_driver_t) (rb : ring_buffer_t)
    (hw : uart_hw_t) (addr n1 n2 t1 t2 t3 : Nat) (incoming : List Nat)
    (o1 o2 o3 : List (Nat × OSStatus)) (w1 w2 w3 : OSStatus)
    (dA dB dC : platform_uart_driver_t) (hwA hwB hwC : uart_hw_t)
    (incA incB incC outA outB outC : List Nat)
    (hrb : d.rx_buffer = some rb) (hwf : ring_buffer_wf rb)
    (hlr : d.last_receive_result = OSStatus.kNoErr)
    (haddr : addr ≠ 0) (hn1 : n1 ≠ 0) (hn2 : n2 ≠ 0)
    (h1 : platform_uart_receive_bytes d hw addr n1 t1 incoming o1 w1
      = some (dA, hwA, incA, outA, OSStatus.kNoErr, true))
    (h2 : platform_uart_receive_bytes dA hwA addr n2 t2 incA o2 w2
      = some (dB, hwB, incB, outB, OSStatus.kNoErr, true))
    (h3 : platform_uart_receive_bytes d hw addr (n1 + n2) t3 incoming o3 w3
      = some (dC, hwC, incC, outC, OSStatus.kNoErr, true)) :
    outC = outA ++ outB ∧
    outA = (ring_buffer_content rb ++ incoming).take n1 ∧
    outB = ((ring_buffer_content rb ++ incoming).drop n1).take n2 ∧
    outC = (ring_buffer_content rb ++ incoming).take (n1 + n2) := by
  obtain ⟨hoA, ⟨rbA, hbufA, hwfA, hqA⟩, hlrA, _⟩ :=
    receive_top_spec d rb hw addr n1 t1 incoming o1 w1 dA hwA incA outA
      hrb hwf hlr haddr hn1 h1
  obtain ⟨hoB, _, _, _⟩ :=
    receive_top_spec dA rbA hwA addr n2 t2 incA o2 w2 dB hwB incB outB
      hbufA hwfA hlrA haddr hn2 h2
  obtain ⟨hoC, _, _, _⟩ :=
    receive_top_spec d rb hw addr (n1 + n2) t3 incoming o3 w3 dC hwC incC outC
      hrb hwf hlr haddr (by omega) h3
  refine ⟨?_, hoA, by rw [hoB, hqA], hoC⟩
  rw [hoC, hoA, hoB, hqA, List.take_add]

theorem claim_C3_witness :
    platform_uart_receive_bytes
        ⟨some ⟨1, [10, 11, 12, 13], 4, 0, 2⟩, 0, 0, OSStatus.kNoErr, OSStatus.kNoErr⟩
        quiet_hw 7 3 100 [20, 21] [(2, OSStatus.kNoErr)] OSStatus.kNoErr
      = some (⟨some ⟨1, [10, 11, 20, 21], 4, 3, 0⟩, 0, 0, OSStatus.kNoErr, OSStatus.kNoErr⟩,
          quiet_hw, [], [10, 11, 20], OSStatus.kNoErr, true) ∧
    ([10, 11, 20] : List Nat) = [10] ++ [11, 20] := by
  refine ⟨by rfl, ?_⟩
  have h := claim_C3_receive_chunking
    ⟨some ⟨1, [10, 11, 12, 13], 4, 0, 2⟩, 0, 0, OSStatus.kNoErr, OSStatus.kNoErr⟩
    ⟨1, [10, 11, 12, 13], 4, 0, 2⟩ quiet_hw 7 1 2 100 100 100 [20, 21]
    [] [(2, OSStatus.kNoErr)] [(2, OSStatus.kNoErr)]
    OSStatus.kNoErr OSStatus.kNoErr OSStatus.kNoErr
    ⟨some ⟨1, [10, 11, 12, 13], 4, 1, 2⟩, 0, 0, OSStatus.kNoErr, OSStatus.kNoErr⟩
    ⟨some ⟨1, [10, 11, 20, 21], 4, 3, 0⟩, 0, 0, OSStatus.kNoErr, OSStatus.kNoErr⟩
    ⟨some ⟨1, [10, 11, 20, 21], 4, 3, 0⟩, 0, 0, OSStatus.kNoErr, OSStatus.kNoErr⟩
    quiet_hw quiet_hw quiet_hw
    [20, 21] [] [] [10] [11, 20] [10, 11, 20]
    rfl (by decide) rfl (by decide) (by decide) (by decide)
    (by rfl) (by rfl) (by rfl)
  exact h.1
